import Mathlib

/-
Shallow embedding of the WS2812/SK6812 strip driver (src/ws2812.cpp,
src/ws2812.hpp) and proofs about its color pipeline, frame encoder,
buffer API and transmission lifecycle.

Machine integers are modelled as Nat with the uint8/uint32 casts written
as explicit % 256 / % 2^32 where the source performs a narrowing cast.
The C++ float computations (the gamma curve and the HSV conversion) are
embedded over exact arithmetic: the gamma LUT fill is abstracted as a
function parameter (see gammaCurveReal for the exact real-valued curve),
and hsv is embedded over the rationals, on which every operation the
source performs (fmod, clamp, abs, round, +, *, /) is exact.
-/

namespace ws

/-- 8-bit RGB color, mirroring struct RGB of ws2812.hpp. Channels are
Nat standing for uint8 values; well-formedness (each channel at most
255) is carried as a hypothesis where a proof needs it. -/
structure RGB where
  r : Nat
  g : Nat
  b : Nat
deriving Repr, DecidableEq

/-- 8-bit RGBW color, mirroring struct RGBW of ws2812.hpp. -/
structure RGBW where
  r : Nat
  g : Nat
  b : Nat
  w : Nat
deriving Repr, DecidableEq

/-- Well-formedness of an RGBW value: each channel fits in a uint8. -/
def RGBW.wf (p : RGBW) : Prop :=
  p.r ≤ 255 ∧ p.g ≤ 255 ∧ p.b ≤ 255 ∧ p.w ≤ 255

instance (p : RGBW) : Decidable p.wf := by
  unfold RGBW.wf; infer_instance

/-- State of one ws::Strip object (ws2812.hpp, private section).
The hardware handles are kept as the source keeps them: sm and dma_ch
are Int with negative meaning "none", pio_offset is the stored program
offset. The float field _freq and the PIO block pointer only feed the
PIO program configuration (out of scope) and are omitted; the unused
field _tx_in_flight is omitted as well. The gamma LUT _gam is a
function on the index range 0..255. -/
structure Strip where
  pin : Nat
  count : Nat
  rgbw : Bool
  sm : Int
  dma_ch : Int
  pio_offset : Int
  buf : List RGBW
  frame_tx : List Nat
  brightness : Nat
  gamma_on : Bool
  gam : Nat → Nat

/-- Constructor Strip::Strip (ws2812.cpp lines 20-27): buffer of count
value-initialized (all-zero) pixels, brightness 255, gamma off, gamma
LUT identity, no DMA channel, program offset 0. -/
def Strip.init (pin count : Nat) (rgbw : Bool) (sm : Int) : Strip :=
  { pin := pin
    count := count
    rgbw := rgbw
    sm := sm
    dma_ch := -1
    pio_offset := 0
    buf := List.replicate count ⟨0, 0, 0, 0⟩
    frame_tx := []
    brightness := 255
    gamma_on := false
    gam := fun i => i }

/-- Brightness scaling, ws2812.cpp lines 111-114:
(uint8_t)((uint16_t(v) * (uint16_t)b + 127) / 255). The uint16
arithmetic cannot overflow for uint8 inputs; the final uint8 cast is
the % 256. -/
def scale_u8 (v b : Nat) : Nat :=
  ((v * b + 127) / 255) % 256

/-- Strip::setAll(RGBW), ws2812.cpp lines 76-78: std::fill over _buf. -/
def setAll (s : Strip) (c : RGBW) : Strip :=
  { s with buf := s.buf.map (fun _ => c) }

/-- Strip::setAll(RGB), ws2812.cpp line 74: delegates with w = 0. -/
def setAllRGB (s : Strip) (c : RGB) : Strip :=
  setAll s ⟨c.r, c.g, c.b, 0⟩

/-- Strip::clear, ws2812.cpp line 72: setAll(RGBW{0,0,0,0}). -/
def clear (s : Strip) : Strip :=
  setAll s ⟨0, 0, 0, 0⟩

/-- Strip::setPixel(uint, RGBW), ws2812.cpp lines 90-93: out-of-range
index returns without touching the buffer. -/
def setPixel (s : Strip) (i : Nat) (c : RGBW) : Strip :=
  if s.count ≤ i then s else { s with buf := s.buf.set i c }

/-- Strip::setPixel(uint, RGB), ws2812.cpp lines 80-83: stores with w = 0. -/
def setPixelRGB (s : Strip) (i : Nat) (c : RGB) : Strip :=
  if s.count ≤ i then s else { s with buf := s.buf.set i ⟨c.r, c.g, c.b, 0⟩ }

/-- Strip::setPixel(uint, uint8_t, uint8_t, uint8_t), ws2812.cpp lines
85-88. -/
def setPixel3 (s : Strip) (i : Nat) (r g b : Nat) : Strip :=
  if s.count ≤ i then s else { s with buf := s.buf.set i ⟨r, g, b, 0⟩ }

/-- Strip::setBrightness, ws2812.cpp line 95. -/
def setBrightness (s : Strip) (b : Nat) : Strip :=
  { s with brightness := b }

/-- Strip::enableGamma, ws2812.cpp lines 97-109. When enabling, the
256-entry LUT is filled with round(pow(i/255, 2.2) * 255) computed in
float; that curve is abstracted here as the parameter curve (its exact
real-valued counterpart is gammaCurveReal below, and the claims proved
use at most the fact curve 0 = 0). When disabling, the LUT is reset to
the identity (uint8_t)i. -/
def enableGamma (curve : Nat → Nat) (enable : Bool) (s : Strip) : Strip :=
  if enable then
    { s with gamma_on := true, gam := curve }
  else
    { s with gamma_on := false, gam := fun i => i }

/-- Exact real-valued counterpart of the float gamma curve filled in by
enableGamma(true): round(pow(i/255, 2.2) * 255), ws2812.cpp lines
100-104. Only its value at 0 (which the float computation also produces
exactly) is used by the proofs. -/
noncomputable def gammaCurveReal (i : Nat) : ℤ :=
  round (((i : ℝ) / 255) ^ (2.2 : ℝ) * 255)

/-- Per-channel color pipeline as inlined in Strip::build_frame
(ws2812.cpp lines 121-124 and 133-135):
scale_u8(_gamma_on ? _gam[v] : v, _brightness). -/
def pipeline (s : Strip) (v : Nat) : Nat :=
  scale_u8 (if s.gamma_on then s.gam v else v) s.brightness

/-- Strip::build_frame, ws2812.cpp lines 116-142. The output vector is
resized to _count and filled in index order; _buf[i] is modelled by
getD (in-bounds under the length invariant kept since construction).
RGBW variant: (g<<24)|(r<<16)|(b<<8)|w, no extra shift. RGB variant:
((g<<16)|(r<<8)|b)<<8 to align the 24 significant bits to the top of
the 32-bit word. -/
def build_frame (s : Strip) : List Nat :=
  if s.rgbw then
    (List.range s.count).map (fun i =>
      let p := s.buf.getD i ⟨0, 0, 0, 0⟩
      let r := pipeline s p.r
      let g := pipeline s p.g
      let b := pipeline s p.b
      let w := pipeline s p.w
      ((g <<< 24) ||| (r <<< 16) ||| (b <<< 8) ||| w) % 2 ^ 32)
  else
    (List.range s.count).map (fun i =>
      let p := s.buf.getD i ⟨0, 0, 0, 0⟩
      let r := pipeline s p.r
      let g := pipeline s p.g
      let b := pipeline s p.b
      (((g <<< 16) ||| (r <<< 8) ||| b) <<< 8) % 2 ^ 32)

/-- Results of the Pico-SDK resource acquisition calls made by
Strip::begin, modelled as an abstract environment. Each call reports
unavailability through a negative return value, which is how the source
stores and tests the results (static int offsets, int sm, int dma_ch):
addProgram is the pio_add_program result, claimSm the
pio_claim_unused_sm result, claimDma the dma_claim_unused_channel
result. -/
structure HwEnv where
  addProgram : Int
  claimSm : Int
  claimDma : Int

/-- Strip::begin, ws2812.cpp lines 29-62, with WS2812_USE_DMA = 1 (the
default). prevOffset is the static per-PIO-block program offset cache
(s_offset_pio0 / s_offset_pio1, negative when the program has not yet
been loaded). The offset returned by pio_add_program is stored through
the (uint) cast (% 2^32) WITHOUT any failure check; begin returns false
only when the state-machine slot is negative; DMA-channel absence is
not fatal; on success the pixel buffer is cleared and true returned.
The result is (return value, strip state, new offset cache). -/
def begin (env : HwEnv) (prevOffset : Int) (s : Strip) : Bool × Strip × Int :=
  let off : Int := if prevOffset < 0 then env.addProgram else prevOffset
  let s1 : Strip := { s with pio_offset := off % 2 ^ 32 }
  let s2 : Strip := if s1.sm < 0 then { s1 with sm := env.claimSm } else s1
  if s2.sm < 0 then (false, s2, off)
  else
    let s3 : Strip := { s2 with dma_ch := env.claimDma }
    (true, clear s3, off)

/-- Strip::busy, ws2812.cpp lines 160-165: when a DMA channel was
claimed the answer is the channel's busy flag (chanBusy models
dma_channel_is_busy(_dma_ch)); without a channel it is immediately
false. -/
def busy (s : Strip) (chanBusy : Bool) : Bool :=
  if 0 ≤ s.dma_ch then chanBusy else false

/-- Strip::wait, ws2812.cpp lines 167-172: with a DMA channel the code
spins while dma_channel_is_busy, then sleeps the 80 microsecond reset
latch. The channel's busy flag over time is modelled as the trace, and
waitExit is the polling-loop exit time: the first instant at which the
channel reports idle (the sleep does not touch the channel). Without a
channel the loop is skipped and the function returns at time 0. -/
def waitExit (s : Strip) (trace : Nat → Bool)
    (h : ∃ n, trace n = false) : Nat :=
  if 0 ≤ s.dma_ch then Nat.find h else 0

/-- Which storage holds the packed words handed to the transfer: the
function-local vector declared inside show/showAsync (ws2812.cpp line
175 and 188), or the persistent member _frame_tx (ws2812.hpp line
155). -/
inductive StagingBuffer
  | functionLocal
  | memberPersistent
deriving Repr, DecidableEq

/-- Observable outcome of one show/showAsync call: the strip state at
return, the word sequence handed to the transfer (DMA start or blocking
FIFO pushes), which storage holds those words, and whether the transfer
is already complete when the call returns. -/
structure ShowResult where
  strip : Strip
  txWords : List Nat
  staging : StagingBuffer
  completedAtReturn : Bool

/-- Strip::showAsync, ws2812.cpp lines 174-185: builds the frame into
the function-local vector frame, hands frame.data() to start_dma and
returns. With a DMA channel (dma_ch at least 0) the transfer is still
in flight at return; without one start_dma falls back to blocking FIFO
pushes left completed at return. No member of the strip is written; in
particular, _frame_tx never receives the frame. -/
def showAsync (s : Strip) : ShowResult :=
  { strip := s
    txWords := build_frame s
    staging := StagingBuffer.functionLocal
    completedAtReturn := decide (s.dma_ch < 0) }

/-- Strip::show, ws2812.cpp lines 187-197: builds the frame into a
function-local vector, starts the transfer, then spins until the DMA
channel is idle (or pushed blocking without a channel) and sleeps the
80 microsecond reset latch, so the transfer is complete at return. -/
def showSync (s : Strip) : ShowResult :=
  { strip := s
    txWords := build_frame s
    staging := StagingBuffer.functionLocal
    completedAtReturn := true }

/-- Truncation toward zero, the semantics of both fmodf's implied
quotient and the (int) cast in Strip::hsv. -/
def qtrunc (x : ℚ) : ℤ :=
  if 0 ≤ x then ⌊x⌋ else ⌈x⌉

/-- Exact counterpart of fmodf(x, y): x - y * trunc(x / y). -/
def qfmod (x y : ℚ) : ℚ :=
  x - y * (qtrunc (x / y) : ℚ)

/-- Hue wrap at the top of Strip::hsv, ws2812.cpp line 200:
h = fmodf(h, 360); if (h < 0) h += 360. -/
def wrapHue (h : ℚ) : ℚ :=
  let h0 := qfmod h 360
  if h0 < 0 then h0 + 360 else h0

/-- Exact counterpart of std::clamp(x, lo, hi) for lo at most hi. -/
def clampQ (x lo hi : ℚ) : ℚ :=
  min (max x lo) hi

/-- Exact counterpart of std::round: round half away from zero. All
values rounded by hsv are nonnegative, where this is floor(x + 1/2). -/
def roundQ (x : ℚ) : ℤ :=
  if 0 ≤ x then ⌊x + 1 / 2⌋ else ⌈x - 1 / 2⌉

/-- Final (uint8_t) conversion of one rounded channel value in
Strip::hsv, ws2812.cpp lines 216-218. For in-range values (0..255,
established separately) this is lossless. -/
def chan8 (x : ℚ) : Nat :=
  (roundQ x).toNat % 256

/-- The 6-way sector switch of Strip::hsv, ws2812.cpp lines 208-215,
selecting (r, g, b) from c, x and 0; seg 5 and every other value fall
to the default branch as in the source. -/
def sectorRGB (seg : ℤ) (c x : ℚ) : ℚ × ℚ × ℚ :=
  if seg = 0 then (c, x, 0)
  else if seg = 1 then (x, c, 0)
  else if seg = 2 then (0, c, x)
  else if seg = 3 then (0, x, c)
  else if seg = 4 then (x, 0, c)
  else (c, 0, x)

/-- Body of Strip::hsv up to the final rounding, ws2812.cpp lines
199-215: returns the three pre-rounding channel intensities
(r+m, g+m, b+m), each later scaled by 255 and rounded. -/
def hsvCore (h s v : ℚ) : ℚ × ℚ × ℚ :=
  let h1 := wrapHue h
  let s1 := clampQ s 0 1
  let v1 := clampQ v 0 1
  let c := v1 * s1
  let x := c * (1 - |qfmod (h1 / 60) 2 - 1|)
  let m := v1 - c
  let seg := qtrunc (h1 / 60)
  let p := sectorRGB seg c x
  (p.1 + m, p.2.1 + m, p.2.2 + m)

/-- Strip::hsv, ws2812.cpp lines 199-219, embedded over the rationals
(every float operation the source performs on the claim-relevant inputs
is exact). Each channel is (uint8_t)std::round(value * 255). -/
def hsv (h s v : ℚ) : RGB :=
  let p := hsvCore h s v
  { r := chan8 (p.1 * 255)
    g := chan8 (p.2.1 * 255)
    b := chan8 (p.2.2 * 255) }

/-- Theorem C2: scale_u8 computes (v*b+127)/255 with a rounding bias
(the uint8 cast is lossless for uint8 inputs), is the identity at
brightness 255, maps everything to 0 at brightness 0, and is
monotonically non-decreasing in the brightness argument. -/
theorem C2_scale_u8_props (v b1 b2 : Nat)
    (hv : v ≤ 255) (hb2 : b2 ≤ 255) (h12 : b1 ≤ b2) :
    scale_u8 v b2 = (v * b2 + 127) / 255 ∧
    scale_u8 v 255 = v ∧
    scale_u8 v 0 = 0 ∧
    scale_u8 v b1 ≤ scale_u8 v b2 := by
  have hle : ∀ x y : Nat, x ≤ 255 → y ≤ 255 → (x * y + 127) / 255 ≤ 255 := by
    intro x y hx hy
    have h1 : x * y + 127 ≤ 255 * 255 + 127 :=
      Nat.add_le_add_right (Nat.mul_le_mul hx hy) 127
    calc (x * y + 127) / 255 ≤ (255 * 255 + 127) / 255 := Nat.div_le_div_right h1
      _ = 255 := by norm_num
  have hmod : ∀ x y : Nat, x ≤ 255 → y ≤ 255 →
      scale_u8 x y = (x * y + 127) / 255 := by
    intro x y hx hy
    unfold scale_u8
    exact Nat.mod_eq_of_lt (Nat.lt_succ_of_le (hle x y hx hy))
  refine ⟨hmod v b2 hv hb2, ?_, ?_, ?_⟩
  · rw [hmod v 255 hv (le_refl 255)]
    have : v * 255 + 127 = 255 * v + 127 := by ring
    rw [this, Nat.mul_add_div (by norm_num)]
    norm_num
  · unfold scale_u8
    norm_num
  · rw [hmod v b1 hv (le_trans h12 hb2), hmod v b2 hv hb2]
    exact Nat.div_le_div_right
      (Nat.add_le_add_right (Nat.mul_le_mul_left v h12) 127)

/-- Witness for C2 at v = 200, b1 = 100, b2 = 150. -/
theorem C2_scale_u8_props_witness :
    scale_u8 200 150 = (200 * 150 + 127) / 255 ∧
    scale_u8 200 255 = 200 ∧
    scale_u8 200 0 = 0 ∧
    scale_u8 200 100 ≤ scale_u8 200 150 :=
  C2_scale_u8_props 200 100 150 (by decide) (by decide) (by decide)

/-- Helper: iterating indices 0..length-1 and reading each slot with a
default (the loop shape of Strip::build_frame) is the same as mapping
over the buffer. -/
lemma range_map_getD {β : Type} (F : RGBW → β) (l : List RGBW) :
    (List.range l.length).map (fun i => F (l.getD i ⟨0, 0, 0, 0⟩)) = l.map F := by
  induction l with
  | nil => simp
  | cons a t ih =>
    simp only [List.length_cons, List.range_succ_eq_map, List.map_cons, List.map_map]
    refine congrArg₂ _ ?_ ?_
    · simp
    · refine Eq.trans (List.map_congr_left fun i hi => ?_) ih
      simp [Function.comp]

/-- Helper: the pre-division value of scale_u8 stays within a uint8 for
uint8 inputs. -/
lemma scale_u8_le (x y : Nat) (hx : x ≤ 255) (hy : y ≤ 255) :
    (x * y + 127) / 255 ≤ 255 := by
  have h1 : x * y + 127 ≤ 255 * 255 + 127 :=
    Nat.add_le_add_right (Nat.mul_le_mul hx hy) 127
  calc (x * y + 127) / 255 ≤ (255 * 255 + 127) / 255 := Nat.div_le_div_right h1
    _ = 255 := by norm_num

/-- Helper: for uint8 inputs the trailing uint8 cast in scale_u8 is the
identity. -/
lemma scale_u8_eq (x y : Nat) (hx : x ≤ 255) (hy : y ≤ 255) :
    scale_u8 x y = (x * y + 127) / 255 := by
  unfold scale_u8
  exact Nat.mod_eq_of_lt (Nat.lt_succ_of_le (scale_u8_le x y hx hy))

/-- Helper: full brightness is the identity scaling. -/
lemma scale_u8_full (v : Nat) (hv : v ≤ 255) : scale_u8 v 255 = v := by
  rw [scale_u8_eq v 255 hv (le_refl 255)]
  have h : v * 255 + 127 = 255 * v + 127 := by ring
  rw [h, Nat.mul_add_div (by norm_num)]
  norm_num

/-- Helper: with brightness 255 and gamma off the per-channel pipeline
is the identity on uint8 values. -/
lemma pipeline_id (s : Strip) (hb : s.brightness = 255) (hg : s.gamma_on = false)
    (v : Nat) (hv : v ≤ 255) : pipeline s v = v := by
  unfold pipeline
  rw [hb, hg]
  simpa using scale_u8_full v hv

/-- Helper: build_frame on an RGBW strip, written as a map over the
buffer (valid under the count = length invariant). -/
lemma build_frame_rgbw (s : Strip) (h : s.rgbw = true) (hc : s.count = s.buf.length) :
    build_frame s = s.buf.map (fun p =>
      ((pipeline s p.g <<< 24) ||| (pipeline s p.r <<< 16) |||
        (pipeline s p.b <<< 8) ||| pipeline s p.w) % 2 ^ 32) := by
  unfold build_frame
  rw [h, if_pos rfl, hc]
  exact range_map_getD (fun p =>
    ((pipeline s p.g <<< 24) ||| (pipeline s p.r <<< 16) |||
      (pipeline s p.b <<< 8) ||| pipeline s p.w) % 2 ^ 32) s.buf

/-- Helper: build_frame on an RGB strip, written as a map over the
buffer (valid under the count = length invariant). -/
lemma build_frame_rgb (s : Strip) (h : s.rgbw = false) (hc : s.count = s.buf.length) :
    build_frame s = s.buf.map (fun p =>
      (((pipeline s p.g <<< 16) ||| (pipeline s p.r <<< 8) |||
        pipeline s p.b) <<< 8) % 2 ^ 32) := by
  unfold build_frame
  rw [h]
  simp only [Bool.false_eq_true, if_false]
  rw [hc]
  exact range_map_getD (fun p =>
    (((pipeline s p.g <<< 16) ||| (pipeline s p.r <<< 8) |||
      pipeline s p.b) <<< 8) % 2 ^ 32) s.buf

/-- Theorem C1: with brightness 255 and gamma off, build_frame emits
one word per pixel in buffer order, packed as (G<<24)|(R<<16)|(B<<8)|W
for the 32-bit RGBW wire format and as ((G<<16)|(R<<8)|B)<<8 for the
24-bit RGB wire format; in particular pixel (r=12h,g=34h,b=56h) encodes
to 34125600h on an RGB strip and (r=10h,g=20h,b=30h,w=40h) encodes to
20103040h on an RGBW strip. -/
theorem C1_build_frame_packing (s : Strip)
    (hc : s.count = s.buf.length) (hb : s.brightness = 255)
    (hg : s.gamma_on = false) (hwf : ∀ p ∈ s.buf, p.wf) :
    (s.rgbw = true → build_frame s = s.buf.map (fun p =>
      ((p.g <<< 24) ||| (p.r <<< 16) ||| (p.b <<< 8) ||| p.w) % 2 ^ 32)) ∧
    (s.rgbw = false → build_frame s = s.buf.map (fun p =>
      (((p.g <<< 16) ||| (p.r <<< 8) ||| p.b) <<< 8) % 2 ^ 32)) ∧
    build_frame { Strip.init 2 1 false 0 with buf := [⟨0x12, 0x34, 0x56, 0⟩] }
      = [0x34125600] ∧
    build_frame { Strip.init 2 1 true 0 with buf := [⟨0x10, 0x20, 0x30, 0x40⟩] }
      = [0x20103040] := by
  refine ⟨?_, ?_, by decide, by decide⟩
  · intro hv
    rw [build_frame_rgbw s hv hc]
    refine List.map_congr_left ?_
    intro p hp
    obtain ⟨h1, h2, h3, h4⟩ := hwf p hp
    rw [pipeline_id s hb hg p.r h1, pipeline_id s hb hg p.g h2,
      pipeline_id s hb hg p.b h3, pipeline_id s hb hg p.w h4]
  · intro hv
    rw [build_frame_rgb s hv hc]
    refine List.map_congr_left ?_
    intro p hp
    obtain ⟨h1, h2, h3, _⟩ := hwf p hp
    rw [pipeline_id s hb hg p.r h1, pipeline_id s hb hg p.g h2,
      pipeline_id s hb hg p.b h3]

/-- Witness for C1 on a concrete one-pixel strip. -/
theorem C1_build_frame_packing_witness :
    (({ Strip.init 0 1 false (-1) with
        buf := [⟨1, 2, 3, 0⟩] } : Strip).rgbw = true →
      build_frame { Strip.init 0 1 false (-1) with buf := [⟨1, 2, 3, 0⟩] } =
        ({ Strip.init 0 1 false (-1) with
          buf := [⟨1, 2, 3, 0⟩] } : Strip).buf.map (fun p =>
          ((p.g <<< 24) ||| (p.r <<< 16) ||| (p.b <<< 8) ||| p.w) % 2 ^ 32)) ∧
    (({ Strip.init 0 1 false (-1) with
        buf := [⟨1, 2, 3, 0⟩] } : Strip).rgbw = false →
      build_frame { Strip.init 0 1 false (-1) with buf := [⟨1, 2, 3, 0⟩] } =
        ({ Strip.init 0 1 false (-1) with
          buf := [⟨1, 2, 3, 0⟩] } : Strip).buf.map (fun p =>
          (((p.g <<< 16) ||| (p.r <<< 8) ||| p.b) <<< 8) % 2 ^ 32)) ∧
    build_frame { Strip.init 2 1 false 0 with buf := [⟨0x12, 0x34, 0x56, 0⟩] }
      = [0x34125600] ∧
    build_frame { Strip.init 2 1 true 0 with buf := [⟨0x10, 0x20, 0x30, 0x40⟩] }
      = [0x20103040] :=
  C1_build_frame_packing
    { Strip.init 0 1 false (-1) with buf := [⟨1, 2, 3, 0⟩] }
    (by decide) (by decide) (by decide) (by decide)
/-- Justification for the gamma-curve abstraction at index 0: the exact
curve maps 0 to 0 (pow(0, 2.2) = 0 exactly, also in IEEE float). -/
lemma gammaCurveReal_zero : gammaCurveReal 0 = 0 := by
  unfold gammaCurveReal
  norm_num

/-- Theorem C5: every setPixel overload with an index at or past count
leaves the strip state (buffer contents and length included) exactly
unchanged; the functions are total, so no error is reported. -/
theorem C5_setPixel_out_of_range (s : Strip) (i : Nat) (cw : RGBW) (c : RGB)
    (r g b : Nat) (h : s.count ≤ i) :
    setPixel s i cw = s ∧ setPixelRGB s i c = s ∧ setPixel3 s i r g b = s := by
  unfold setPixel setPixelRGB setPixel3
  rw [if_pos h, if_pos h, if_pos h]
  exact ⟨rfl, rfl, rfl⟩

/-- Witness for C5 at index = count on a 4-pixel strip. -/
theorem C5_setPixel_out_of_range_witness :
    setPixel (Strip.init 0 4 false (-1)) 4 ⟨1, 2, 3, 4⟩ = Strip.init 0 4 false (-1) ∧
    setPixelRGB (Strip.init 0 4 false (-1)) 4 ⟨9, 9, 9⟩ = Strip.init 0 4 false (-1) ∧
    setPixel3 (Strip.init 0 4 false (-1)) 4 7 8 9 = Strip.init 0 4 false (-1) :=
  C5_setPixel_out_of_range (Strip.init 0 4 false (-1)) 4 ⟨1, 2, 3, 4⟩ ⟨9, 9, 9⟩
    7 8 9 (by decide)

/-- Theorem C6: enableGamma(false) after enableGamma(true) restores the
gamma table to the identity on every index in 0..255, whatever values
the gamma curve wrote. -/
theorem C6_enableGamma_identity_restore (curve : Nat → Nat) (s : Strip)
    (i : Nat) (hi : i ≤ 255) :
    (enableGamma curve false (enableGamma curve true s)).gam i = i := by
  simp [enableGamma]

/-- Witness for C6 with a non-identity curve at index 7. -/
theorem C6_enableGamma_identity_restore_witness :
    (enableGamma (fun i => 255 - i) false
      (enableGamma (fun i => 255 - i) true (Strip.init 0 3 false (-1)))).gam 7 = 7 :=
  C6_enableGamma_identity_restore (fun i => 255 - i) (Strip.init 0 3 false (-1))
    7 (by decide)

/-- Theorem C9: show and showAsync return the strip state unchanged
(brightness and gamma touch only the transmission words produced by
build_frame), and after a show the buffer still holds exactly the pixel
the caller last wrote. -/
theorem C9_show_preserves_buffer (s : Strip) (i : Nat) (c : RGBW)
    (hi : i < s.count) (hil : i < s.buf.length) :
    (showSync s).strip = s ∧ (showAsync s).strip = s ∧
    (showSync s).txWords = build_frame s ∧
    (showAsync s).txWords = build_frame s ∧
    (showSync (setPixel s i c)).strip.buf.getD i ⟨0, 0, 0, 0⟩ = c := by
  refine ⟨rfl, rfl, rfl, rfl, ?_⟩
  show (setPixel s i c).buf.getD i ⟨0, 0, 0, 0⟩ = c
  unfold setPixel
  rw [if_neg (Nat.not_le.mpr hi)]
  show (s.buf.set i c).getD i ⟨0, 0, 0, 0⟩ = c
  rw [List.getD_eq_getElem?_getD, List.getElem?_set_self']
  simp [List.getElem?_eq_getElem hil]

/-- Witness for C9 on a 2-pixel strip writing pixel 1. -/
theorem C9_show_preserves_buffer_witness :
    (showSync (Strip.init 0 2 false (-1))).strip = Strip.init 0 2 false (-1) ∧
    (showAsync (Strip.init 0 2 false (-1))).strip = Strip.init 0 2 false (-1) ∧
    (showSync (Strip.init 0 2 false (-1))).txWords
      = build_frame (Strip.init 0 2 false (-1)) ∧
    (showAsync (Strip.init 0 2 false (-1))).txWords
      = build_frame (Strip.init 0 2 false (-1)) ∧
    (showSync (setPixel (Strip.init 0 2 false (-1)) 1 ⟨5, 6, 7, 8⟩)).strip.buf.getD
      1 ⟨0, 0, 0, 0⟩ = ⟨5, 6, 7, 8⟩ :=
  C9_show_preserves_buffer (Strip.init 0 2 false (-1)) 1 ⟨5, 6, 7, 8⟩
    (by decide) (by decide)

/-- Helper: brightness scaling maps a zero channel to zero for every
brightness. -/
lemma scale_u8_zero_left (b : Nat) : scale_u8 0 b = 0 := by
  unfold scale_u8
  norm_num

/-- Helper: the full pipeline maps a zero channel to zero whenever the
gamma table maps 0 to 0. -/
lemma pipeline_zero (s : Strip) (hg0 : s.gam 0 = 0) : pipeline s 0 = 0 := by
  unfold pipeline
  cases hon : s.gamma_on <;> simp [hg0, scale_u8_zero_left]

/-- Helper: reading any index of a constant-zero buffer with a zero
default yields the zero pixel. -/
lemma getD_map_const (l : List RGBW) (i : Nat) :
    ((l.map (fun _ => (⟨0, 0, 0, 0⟩ : RGBW))).getD i ⟨0, 0, 0, 0⟩) = ⟨0, 0, 0, 0⟩ := by
  rw [List.getD_eq_getElem?_getD, List.getElem?_map]
  cases l[i]? <;> simp

/-- Theorem C10: a zero channel survives the whole pipeline as zero (the
gamma table maps 0 to 0 — hypotheses hcurve and hg0, true of the
identity LUT and, by gammaCurveReal_zero, of the float curve — and
scaling maps 0 to 0 at every brightness), so after clear() build_frame
produces the all-zero word sequence on both wire formats. -/
theorem C10_zero_pipeline (curve : Nat → Nat) (s : Strip)
    (hcurve : curve 0 = 0) (hg0 : s.gam 0 = 0) :
    pipeline s 0 = 0 ∧
    (∀ b, scale_u8 0 b = 0) ∧
    (∀ en, (enableGamma curve en s).gam 0 = 0) ∧
    build_frame (clear s) = List.replicate s.count 0 := by
  refine ⟨pipeline_zero s hg0, scale_u8_zero_left, ?_, ?_⟩
  · intro en
    cases en <;> simp [enableGamma, hcurve]
  · have hpz : pipeline (clear s) 0 = 0 := pipeline_zero (clear s) hg0
    unfold build_frame
    have hcount : (clear s).count = s.count := rfl
    cases hv : (clear s).rgbw <;> simp only [if_pos rfl, Bool.false_eq_true, if_false]
    · rw [hcount]
      have hz : ∀ i, (((clear s).buf.getD i ⟨0, 0, 0, 0⟩)) = (⟨0, 0, 0, 0⟩ : RGBW) := by
        intro i
        exact getD_map_const s.buf i
      trans (List.range s.count).map (fun _ => (0 : Nat))
      · refine List.map_congr_left fun i _ => ?_
        rw [hz i]
        simp [hpz]
      · simp [List.map_const']
    · rw [hcount]
      have hz : ∀ i, (((clear s).buf.getD i ⟨0, 0, 0, 0⟩)) = (⟨0, 0, 0, 0⟩ : RGBW) := by
        intro i
        exact getD_map_const s.buf i
      trans (List.range s.count).map (fun _ => (0 : Nat))
      · refine List.map_congr_left fun i _ => ?_
        rw [hz i]
        simp [hpz]
      · simp [List.map_const']

/-- Witness for C10 with the identity curve on a 2-pixel strip. -/
theorem C10_zero_pipeline_witness :
    pipeline (Strip.init 0 2 false (-1)) 0 = 0 ∧
    (∀ b, scale_u8 0 b = 0) ∧
    (∀ en, (enableGamma (fun i => i) en (Strip.init 0 2 false (-1))).gam 0 = 0) ∧
    build_frame (clear (Strip.init 0 2 false (-1))) = List.replicate 2 0 :=
  C10_zero_pipeline (fun i => i) (Strip.init 0 2 false (-1)) rfl rfl

/-- Theorem for C3 (code bug): on a strip holding a DMA channel,
showAsync hands the transfer a function-local staging buffer, returns
while the transfer is still in flight, and never writes the persistent
member _frame_tx — the staging words do not survive past the function
return as the spec and the header documentation require. -/
theorem C3_showAsync_local_staging :
    (showAsync { Strip.init 2 1 false 0 with dma_ch := 0 }).staging
      = StagingBuffer.functionLocal ∧
    (showAsync { Strip.init 2 1 false 0 with dma_ch := 0 }).completedAtReturn
      = false ∧
    (showAsync { Strip.init 2 1 false 0 with dma_ch := 0 }).strip.frame_tx
      = ([] : List Nat) := by
  refine ⟨rfl, by decide, rfl⟩

/-- Theorem for C4 (code bug): when the timing-program load reports
failure (addProgram negative) but a state machine is free, begin still
returns true and stores the failed offset through the uint cast as
4294967295; it does return false when no state machine is available,
and on success it clears the pixel buffer. -/
theorem C4_begin_load_failure :
    (begin ⟨-1, 0, 3⟩ (-1) (Strip.init 5 4 false (-1))).1 = true ∧
    (begin ⟨-1, 0, 3⟩ (-1) (Strip.init 5 4 false (-1))).2.1.pio_offset
      = 4294967295 ∧
    (begin ⟨7, -1, 3⟩ (-1) (Strip.init 5 4 false (-1))).1 = false ∧
    (begin ⟨7, 0, 3⟩ (-1) (Strip.init 5 4 false (-1))).2.1.buf
      = List.replicate 4 ⟨0, 0, 0, 0⟩ := by
  refine ⟨by decide, by decide, by decide, by decide⟩

/-- Theorem C7: busy is the DMA channel's busy flag when a channel was
claimed and immediately false when none was, and at the instant the
wait polling loop exits the channel reports idle, so busy is false
right after wait returns for any channel availability. -/
theorem C7_busy_wait_contract (s : Strip) (chanBusy : Bool)
    (trace : Nat → Bool) (h : ∃ n, trace n = false) :
    (0 ≤ s.dma_ch → busy s chanBusy = chanBusy) ∧
    (s.dma_ch < 0 → busy s chanBusy = false) ∧
    busy s (trace (waitExit s trace h)) = false := by
  refine ⟨fun hd => ?_, fun hd => ?_, ?_⟩
  · simp [busy, hd]
  · simp [busy, not_le.mpr hd]
  · unfold busy waitExit
    by_cases hd : 0 ≤ s.dma_ch
    · rw [if_pos hd, if_pos hd]
      exact Nat.find_spec h
    · rw [if_neg hd]

/-- Witness for C7 on a strip with DMA channel 2 and a trace that is
idle from time 0. -/
theorem C7_busy_wait_contract_witness :
    (0 ≤ ({ Strip.init 0 1 false 0 with dma_ch := 2 }).dma_ch →
      busy { Strip.init 0 1 false 0 with dma_ch := 2 } true = true) ∧
    (({ Strip.init 0 1 false 0 with dma_ch := 2 }).dma_ch < 0 →
      busy { Strip.init 0 1 false 0 with dma_ch := 2 } true = false) ∧
    busy { Strip.init 0 1 false 0 with dma_ch := 2 }
      ((fun _ => false) (waitExit { Strip.init 0 1 false 0 with dma_ch := 2 }
        (fun _ => false) ⟨0, rfl⟩)) = false :=
  C7_busy_wait_contract { Strip.init 0 1 false 0 with dma_ch := 2 } true
    (fun _ => false) ⟨0, rfl⟩
/-- Helper: for a nonnegative numerator and positive modulus, qfmod
lands in [0, y). -/
lemma qfmod_nonneg_bounds (x y : ℚ) (hx : 0 ≤ x) (hy : 0 < y) :
    0 ≤ qfmod x y ∧ qfmod x y < y := by
  unfold qfmod qtrunc
  have hxy : 0 ≤ x / y := div_nonneg hx hy.le
  rw [if_pos hxy]
  have hfl : (⌊x / y⌋ : ℚ) ≤ x / y := Int.floor_le _
  have hfu : x / y < ⌊x / y⌋ + 1 := Int.lt_floor_add_one _
  have hxe : y * (x / y) = x := mul_div_cancel₀ x (ne_of_gt hy)
  constructor
  · nlinarith
  · nlinarith

/-- Helper: for a negative numerator and positive modulus, qfmod lands
in (-y, 0]. -/
lemma qfmod_nonpos_bounds (x y : ℚ) (hx : x < 0) (hy : 0 < y) :
    -y < qfmod x y ∧ qfmod x y ≤ 0 := by
  unfold qfmod qtrunc
  have hxy : ¬ 0 ≤ x / y := by
    rw [not_le]
    exact div_neg_of_neg_of_pos hx hy
  rw [if_neg hxy]
  have hcl : x / y ≤ (⌈x / y⌉ : ℚ) := Int.le_ceil _
  have hcu : (⌈x / y⌉ : ℚ) < x / y + 1 := Int.ceil_lt_add_one _
  have hxe : y * (x / y) = x := mul_div_cancel₀ x (ne_of_gt hy)
  constructor
  · nlinarith
  · nlinarith

/-- Helper: the fmod-plus-correction hue wrap lands in [0, 360). -/
lemma wrapHue_bounds (h : ℚ) : 0 ≤ wrapHue h ∧ wrapHue h < 360 := by
  unfold wrapHue
  by_cases hx : 0 ≤ h
  · obtain ⟨h1, h2⟩ := qfmod_nonneg_bounds h 360 hx (by norm_num)
    rw [if_neg (not_lt.mpr h1)]
    exact ⟨h1, h2⟩
  · push_neg at hx
    obtain ⟨h1, h2⟩ := qfmod_nonpos_bounds h 360 hx (by norm_num)
    by_cases h0 : qfmod h 360 < 0
    · rw [if_pos h0]
      constructor <;> linarith
    · rw [if_neg h0]
      push_neg at h0
      exact ⟨h0, by linarith⟩

/-- Helper: clamping into [0, 1] lands in [0, 1]. -/
lemma clampQ_bounds (x : ℚ) : 0 ≤ clampQ x 0 1 ∧ clampQ x 0 1 ≤ 1 := by
  unfold clampQ
  constructor
  · exact le_min (le_max_right x 0) (by norm_num)
  · exact min_le_right _ _

/-- Helper: every component the sector switch selects is c, x or 0. -/
lemma sectorRGB_mem (seg : ℤ) (c x : ℚ) :
    ((sectorRGB seg c x).1 = c ∨ (sectorRGB seg c x).1 = x ∨ (sectorRGB seg c x).1 = 0) ∧
    ((sectorRGB seg c x).2.1 = c ∨ (sectorRGB seg c x).2.1 = x ∨ (sectorRGB seg c x).2.1 = 0) ∧
    ((sectorRGB seg c x).2.2 = c ∨ (sectorRGB seg c x).2.2 = x ∨ (sectorRGB seg c x).2.2 = 0) := by
  unfold sectorRGB
  split_ifs <;> simp

/-- Helper: with c = x = 0 every sector yields (0, 0, 0). -/
lemma sectorRGB_zero (seg : ℤ) : sectorRGB seg 0 0 = (0, 0, 0) := by
  unfold sectorRGB
  split_ifs <;> rfl

/-- Helper: a sector component plus m stays in [0, 1] under the chroma
bounds. -/
lemma comp_add_m_bounds (c x m comp : ℚ) (hx0 : 0 ≤ x) (hxc : x ≤ c)
    (hm0 : 0 ≤ m) (hcm : c + m ≤ 1)
    (hmem : comp = c ∨ comp = x ∨ comp = 0) :
    0 ≤ comp + m ∧ comp + m ≤ 1 := by
  rcases hmem with rfl | rfl | rfl <;> constructor <;> linarith

/-- Helper: every pre-rounding channel intensity hsv computes lies in
[0, 1]. -/
lemma hsvCore_bounds (h s v : ℚ) :
    (0 ≤ (hsvCore h s v).1 ∧ (hsvCore h s v).1 ≤ 1) ∧
    (0 ≤ (hsvCore h s v).2.1 ∧ (hsvCore h s v).2.1 ≤ 1) ∧
    (0 ≤ (hsvCore h s v).2.2 ∧ (hsvCore h s v).2.2 ≤ 1) := by
  have hh := wrapHue_bounds h
  have hs1 := clampQ_bounds s
  have hv1 := clampQ_bounds v
  have hw := qfmod_nonneg_bounds (wrapHue h / 60) 2
    (div_nonneg hh.1 (by norm_num)) (by norm_num)
  simp only [hsvCore]
  set s1 := clampQ s 0 1 with hs1d
  set v1 := clampQ v 0 1 with hv1d
  set c := v1 * s1 with hcd
  set fac := 1 - |qfmod (wrapHue h / 60) 2 - 1| with hfacd
  set xx := c * fac with hxxd
  set m := v1 - c with hmd
  have hc0 : 0 ≤ c := mul_nonneg hv1.1 hs1.1
  have hcv : c ≤ v1 := by nlinarith [hv1.1, hs1.2]
  have habs : |qfmod (wrapHue h / 60) 2 - 1| ≤ 1 :=
    abs_le.mpr ⟨by linarith [hw.1], by linarith [hw.2]⟩
  have habs0 : 0 ≤ |qfmod (wrapHue h / 60) 2 - 1| := abs_nonneg _
  have hfac0 : 0 ≤ fac := by rw [hfacd]; linarith
  have hfac1 : fac ≤ 1 := by rw [hfacd]; linarith
  have hx0 : 0 ≤ xx := mul_nonneg hc0 hfac0
  have hxc : xx ≤ c := by rw [hxxd]; nlinarith
  have hm0 : 0 ≤ m := by rw [hmd]; linarith
  have hcm : c + m ≤ 1 := by rw [hmd]; linarith [hv1.2]
  obtain ⟨m1, m2, m3⟩ := sectorRGB_mem (qtrunc (wrapHue h / 60)) c xx
  exact ⟨comp_add_m_bounds c xx m _ hx0 hxc hm0 hcm m1,
    comp_add_m_bounds c xx m _ hx0 hxc hm0 hcm m2,
    comp_add_m_bounds c xx m _ hx0 hxc hm0 hcm m3⟩

/-- Helper: for an intensity in [0, 1], rounding the scaled value gives
an integer in [0, 255] and the trailing uint8 cast is lossless. -/
lemma roundQ_range (t : ℚ) (h0 : 0 ≤ t) (h1 : t ≤ 1) :
    0 ≤ roundQ (t * 255) ∧ roundQ (t * 255) ≤ 255 ∧
    (chan8 (t * 255) : ℤ) = roundQ (t * 255) := by
  have ht : 0 ≤ t * 255 := by positivity
  have hr : roundQ (t * 255) = ⌊t * 255 + 1 / 2⌋ := by
    unfold roundQ
    rw [if_pos ht]
  have hf0 : (0 : ℤ) ≤ ⌊t * 255 + 1 / 2⌋ := Int.floor_nonneg.mpr (by linarith)
  have hf1 : ⌊t * 255 + 1 / 2⌋ ≤ 255 := by
    have h2 : ⌊t * 255 + 1 / 2⌋ < (256 : ℤ) := Int.floor_lt.mpr (by push_cast; linarith)
    omega
  refine ⟨by rw [hr]; exact hf0, by rw [hr]; exact hf1, ?_⟩
  unfold chan8
  rw [hr]
  have htn : ⌊t * 255 + 1 / 2⌋.toNat < 256 := by omega
  rw [Nat.mod_eq_of_lt htn]
  exact_mod_cast Int.toNat_of_nonneg hf0

/-- Helper: roundQ is rounding to a nearest integer, never more than
half away. -/
lemma roundQ_nearest (t : ℚ) : |(roundQ t : ℚ) - t| ≤ 1 / 2 := by
  unfold roundQ
  by_cases h : 0 ≤ t
  · rw [if_pos h]
    have a := Int.floor_le (t + 1 / 2)
    have b := Int.lt_floor_add_one (t + 1 / 2)
    rw [abs_le]
    constructor <;> push_cast at a b ⊢ <;> linarith
  · rw [if_neg h]
    have a := Int.le_ceil (t - 1 / 2)
    have b := Int.ceil_lt_add_one (t - 1 / 2)
    rw [abs_le]
    constructor <;> push_cast at a b ⊢ <;> linarith

/-- Helper: at saturation 0 the three pre-rounding intensities agree. -/
lemma hsvCore_achromatic (h v : ℚ) :
    (hsvCore h 0 v).1 = (hsvCore h 0 v).2.1 ∧
    (hsvCore h 0 v).2.1 = (hsvCore h 0 v).2.2 := by
  have hs0 : clampQ 0 0 1 = 0 := by
    unfold clampQ
    norm_num
  simp only [hsvCore, hs0, mul_zero, zero_mul, sectorRGB_zero]
  norm_num

/-- Theorem C8: hsv wraps the hue into [0, 360) by modulo with sign
correction, clamps saturation and value into [0, 1], keeps every
pre-rounding channel intensity in [0, 1] and rounds it (to a nearest
integer, not by truncation) into [0, 255] with a lossless uint8 cast;
it satisfies the fixed vectors hsv(0,1,1) = (255,0,0),
hsv(120,1,1) = (0,255,0), hsv(240,1,1) = (0,0,255); and at saturation 0
the result is achromatic for every hue and value. -/
theorem C8_hsv_props :
    (∀ h : ℚ, 0 ≤ wrapHue h ∧ wrapHue h < 360) ∧
    (∀ q : ℚ, 0 ≤ clampQ q 0 1 ∧ clampQ q 0 1 ≤ 1) ∧
    (∀ h s v : ℚ,
      (0 ≤ (hsvCore h s v).1 ∧ (hsvCore h s v).1 ≤ 1) ∧
      (0 ≤ (hsvCore h s v).2.1 ∧ (hsvCore h s v).2.1 ≤ 1) ∧
      (0 ≤ (hsvCore h s v).2.2 ∧ (hsvCore h s v).2.2 ≤ 1)) ∧
    (∀ t : ℚ, 0 ≤ t → t ≤ 1 →
      0 ≤ roundQ (t * 255) ∧ roundQ (t * 255) ≤ 255 ∧
      (chan8 (t * 255) : ℤ) = roundQ (t * 255)) ∧
    (∀ t : ℚ, |(roundQ t : ℚ) - t| ≤ 1 / 2) ∧
    (∀ h v : ℚ, (hsv h 0 v).r = (hsv h 0 v).g ∧ (hsv h 0 v).g = (hsv h 0 v).b) ∧
    hsv 0 1 1 = ⟨255, 0, 0⟩ ∧ hsv 120 1 1 = ⟨0, 255, 0⟩ ∧
    hsv 240 1 1 = ⟨0, 0, 255⟩ := by
  refine ⟨wrapHue_bounds, clampQ_bounds, hsvCore_bounds, roundQ_range,
    roundQ_nearest, ?_, ?_, ?_, ?_⟩
  · intro h v
    have hach := hsvCore_achromatic h v
    exact ⟨congrArg (fun t : ℚ => chan8 (t * 255)) hach.1,
      congrArg (fun t : ℚ => chan8 (t * 255)) hach.2⟩
  · norm_num [hsv, hsvCore, wrapHue, qfmod, qtrunc, clampQ, roundQ, chan8, sectorRGB]
    decide
  · norm_num [hsv, hsvCore, wrapHue, qfmod, qtrunc, clampQ, roundQ, chan8, sectorRGB]
    decide
  · norm_num [hsv, hsvCore, wrapHue, qfmod, qtrunc, clampQ, roundQ, chan8, sectorRGB]
    decide

/-- Witness for C8: hue 500 wraps into range and intensity 1 rounds to
255 with a lossless cast. -/
theorem C8_hsv_props_witness :
    0 ≤ wrapHue 500 ∧ wrapHue 500 < 360 ∧
    0 ≤ roundQ (1 * 255) ∧ roundQ (1 * 255) ≤ 255 ∧
    (chan8 (1 * 255) : ℤ) = roundQ (1 * 255) := by
  obtain ⟨hw, _, _, hr, _⟩ := C8_hsv_props
  obtain ⟨a, b, c⟩ := hr 1 zero_le_one le_rfl
  exact ⟨(hw 500).1, (hw 500).2, a, b, c⟩
end ws
